import Mathlib

/-!
Verification of the Popcorn-Plots data pipeline.

The repository has two pipeline variants:
* `data-pipeline/datasets.py` (JSON-document export, `process_movies_to_json`,
  `should_include_movie`, `filter_genres`), and
* `data-pipeline/src/postprocess.py` + `data-pipeline/src/__main__.py`
  (parquet/columnar export, `postprocess_movielens`, `postprocess_imdb`, `main`).

Below, the relevant operations are embedded as executable Lean functions over
lists of records; polars tables are modelled as lists of rows, null values as
`Option`, float ratings as `Rat`, and timestamps/dates as `Int` (seconds,
respectively days since 1970-01-01).
-/

/-! ## Key normalizer (datasets.py lines 143-148, postprocess.py line 44) -/

/-- Character of a decimal digit: `digitChar 3 = '3'`. -/
def digitChar (d : Nat) : Char := Char.ofNat (48 + d)

/-- Numeric value of a decimal digit character. -/
def charVal (c : Char) : Nat := c.toNat - 48

/-- Decimal digit test on characters. -/
def isDigitChar (c : Char) : Bool := 48 ≤ c.toNat && c.toNat ≤ 57

/-- Decimal digits of `n`, most significant first; `decDigits 0 = [0]`
(Python `str(0) = "0"`, polars casts an integer column the same way). -/
def decDigits (n : Nat) : List Nat := if n = 0 then [0] else (Nat.digits 10 n).reverse

/-- Python `str.zfill` / polars `str.zfill`: left-pad with '0' to a minimum
width; longer inputs are kept unchanged (never truncated). -/
def zfill (w : Nat) (l : List Char) : List Char := List.replicate (w - l.length) '0' ++ l

/-- datasets.py lines 143-148: `"tt" + str(imdbId).zfill(7)` (the `tconst` column). -/
def tconstOfImdbId (n : Nat) : String :=
  "tt" ++ String.mk (zfill 7 ((decDigits n).map digitChar))

/-- polars `str.replace("tt", "")`: delete the leftmost occurrence of `"tt"`. -/
def stripTT : List Char → List Char
  | 't' :: 't' :: rest => rest
  | c :: rest => c :: stripTT rest
  | [] => []

/-- Value of a decimal digit string, most significant first. -/
def decValue (l : List Char) : Nat := l.foldl (fun a c => 10 * a + charVal c) 0

/-- polars strict cast of a string to `UInt32`: parse the decimal digits;
no value when the string is empty, has a non-digit, or exceeds the unsigned
32-bit range (the strict cast fails there). -/
def castStringUInt32 (l : List Char) : Option Nat :=
  if l ≠ [] ∧ (∀ c ∈ l, isDigitChar c) ∧ decValue l < 2 ^ 32 then some (decValue l) else none

/-- postprocess.py line 44: `pl.col("id").str.replace("tt", "").cast(pl.UInt32)`. -/
def imdbIdOfTconst (s : String) : Option Nat := castStringUInt32 (stripTT s.data)

/-! ## Text filter (datasets.py lines 95-116, 131-132) -/

/-- The fixed excluded-genre set used by both pipeline variants. -/
def excludedGenresList : List String :=
  ["Adult", "Film-Noir", "Game-Show", "Music", "News", "Reality-TV", "Short", "Talk-Show"]

/-- The fixed allowed title types. -/
def allowedTitleTypesList : List String := ["movie", "tvMovie"]

/-- Whitespace test of Python `str.strip()` (ASCII whitespace suffices here). -/
def isSpaceChar (c : Char) : Bool := c == ' ' || c == '\t' || c == '\n' || c == '\r'

/-- Python `str.strip()`: drop leading and trailing whitespace. -/
def stripChars (l : List Char) : List Char :=
  ((l.dropWhile isSpaceChar).reverse.dropWhile isSpaceChar).reverse

/-- Python `str.strip()` on strings. -/
def pyStrip (s : String) : String := String.mk (stripChars s.data)

/-- Python `s.split(",")` on the character list: split at every comma, keeping
empty pieces (for nonempty separators Python and polars behave alike). -/
def splitCommaAux : List Char → List Char → List (List Char)
  | [], acc => [acc.reverse]
  | c :: rest, acc =>
    if c = ',' then acc.reverse :: splitCommaAux rest []
    else splitCommaAux rest (c :: acc)

/-- Python `s.split(",")` / polars `str.split(",")` on strings. -/
def pySplitComma (s : String) : List String := (splitCommaAux s.data []).map String.mk

/-- Python `[g.strip() for g in s.split(",")]`. -/
def splitStrip (s : String) : List String := (pySplitComma s).map pyStrip

/-- The "no genres" sentinels of datasets.py: empty string (also standing for a
null field), the MovieLens sentinel, and the raw IMDb missing marker. -/
def genresSentinel (s : String) : Bool := s == "" || s == "(no genres listed)" || s == "\\N"

/-- datasets.py lines 110-113: parse a raw genre field; sentinels and missing
normalize to the empty list. -/
def parseGenresRaw (s : String) : List String :=
  if genresSentinel s then [] else splitStrip s

/-- datasets.py lines 105-116 (`should_include_movie`). -/
def should_include_movie (genres_str : String) (excluded_genres : List String)
    (title_type : String) (allowed_title_types : List String) : Bool :=
  if title_type ∉ allowed_title_types then false
  else
    let genres := parseGenresRaw genres_str
    let remaining := genres.filter (fun g => decide (g ∉ excluded_genres))
    remaining.length > 0

/-! ## Document pipeline rows and filters (datasets.py lines 119-241) -/

/-- A row of the links-with-IMDb-metadata table of `process_movies_to_json`
(links left-joined with title_basics on the derived `tconst`); IMDb fields are
null for links with no IMDb match. -/
structure MovieRow where
  movieId : Nat
  tconst : String
  titleType : Option String
  genres : Option String
  primaryTitle : Option String
  startYear : Option Int
  endYear : Option Int
  runtimeMinutes : Option Int
deriving DecidableEq

/-- datasets.py lines 157-161: keep rows whose titleType is null, "movie" or "tvMovie". -/
def titleTypeNullPermissive (r : MovieRow) : Bool :=
  match r.titleType with
  | none => true
  | some t => t == "movie" || t == "tvMovie"

/-- datasets.py lines 164-175: the live genre/type filter branch (the configured
excluded-genre set is nonempty), passing null genres and null titleType as `""`. -/
def genreTypePredicate (r : MovieRow) : Bool :=
  should_include_movie (r.genres.getD "") excludedGenresList
    (r.titleType.getD "") allowedTitleTypesList

/-- The successive title-side filters of `process_movies_to_json`. -/
def filterMovieRows (rows : List MovieRow) : List MovieRow :=
  (rows.filter titleTypeNullPermissive).filter genreTypePredicate

/-- One rating event row of ratings.csv. -/
structure RatingRow where
  userId : Nat
  movieId : Nat
  rating : Rat
  timestamp : Int
deriving DecidableEq

/-- JSON values appearing in the exported movie objects. -/
inductive JVal where
  | jnull
  | jstr (s : String)
  | jint (n : Int)
  | jstrList (l : List String)
  | jreviews (l : List (Rat × Int))
deriving DecidableEq

/-- Value of an optional integer column in the movie dict (`row.get` gives None
for a null cell). -/
def jOfOptInt : Option Int → JVal
  | none => JVal.jnull
  | some n => JVal.jint n

/-- Value of an optional string column in the movie dict. -/
def jOfOptStr : Option String → JVal
  | none => JVal.jnull
  | some s => JVal.jstr s

/-- datasets.py lines 217-224: the exported genre list of one movie row;
`genres_raw` falsy (null or empty) or equal to the raw missing marker gives `[]`,
otherwise split, strip, and remove the excluded genres. -/
def exportGenres (raw : Option String) : List String :=
  match raw with
  | none => []
  | some s =>
    if s = "" ∨ s = "\\N" then []
    else (splitStrip s).filter (fun g => decide (g ∉ excludedGenresList))

/-- datasets.py lines 226-235: the movie object before sparse filtering, as an
association list in source field order (`row.get("primaryTitle") or ""` maps a
missing title to the empty string). -/
def movieObj (r : MovieRow) (reviews : List (Rat × Int)) : List (String × JVal) :=
  [("imdbId", JVal.jstr r.tconst),
   ("title", JVal.jstr (match r.primaryTitle with | none => "" | some t => t)),
   ("startYear", jOfOptInt r.startYear),
   ("endYear", jOfOptInt r.endYear),
   ("runtimeMinutes", jOfOptInt r.runtimeMinutes),
   ("titleType", jOfOptStr r.titleType),
   ("genres", JVal.jstrList (exportGenres r.genres)),
   ("reviews", JVal.jreviews reviews)]

/-- datasets.py line 239: `v is not None and v != "" and v != "\\N"`. -/
def sparseKeep : JVal → Bool
  | JVal.jnull => false
  | JVal.jstr s => !(s == "" || s == "\\N")
  | _ => true

/-- datasets.py lines 238-239: the sparse-encoding dict comprehension. -/
def sparseObj (obj : List (String × JVal)) : List (String × JVal) :=
  obj.filter (fun kv => sparseKeep kv.2)

/-- datasets.py lines 195-241: build the exported JSON array; each movie carries
the first 200 of its rating rows, and a row with an empty `tconst` is skipped. -/
def buildResult (movies : List MovieRow) (ratings : List RatingRow) : List (List (String × JVal)) :=
  movies.filterMap (fun r =>
    if r.tconst = "" then none
    else
      let movie_ratings := (ratings.filter (fun x => x.movieId == r.movieId)).take 200
      some (sparseObj (movieObj r (movie_ratings.map (fun x => (x.rating, x.timestamp))))))

/-! ## Columnar pipeline: postprocess.py -/

/-- One row of links.csv. -/
structure LinkRow where
  movieId : Nat
  imdbId : Nat
  tmdbId : Option Nat
deriving DecidableEq

/-- A rating row after the bridge join of postprocess_movielens, restricted to
the columns that survive the `drop` (imdbId is null when no link row matched). -/
structure BridgedRow where
  imdbId : Option Nat
  rating : Rat
  timestamp : Int
deriving DecidableEq

/-- postprocess.py lines 6-8: `ratings.join(links, on="movieId", how="left")`
followed by the column drop. A left join keeps every rating row; unmatched rows
carry a null imdbId, matched rows one copy per matching link row. -/
def bridgeJoin (ratings : List RatingRow) (links : List LinkRow) : List BridgedRow :=
  ratings.flatMap (fun r =>
    match links.filter (fun l => l.movieId == r.movieId) with
    | [] => [⟨none, r.rating, r.timestamp⟩]
    | m :: ms => (m :: ms).map (fun l => ⟨some l.imdbId, r.rating, r.timestamp⟩))

/-- postprocess.py lines 11-15: seconds → milliseconds → Datetime → truncate to
the calendar week → Date. polars `truncate("1w")` floors to the preceding Monday
midnight; in days since 1970-01-01 (a Thursday) that is `d - ((d + 3) mod 7)`. -/
def weekStartDays (ts : Int) : Int :=
  let d := Int.fdiv ts 86400
  d - (d + 3) % 7

/-- One output row of postprocess_movielens: group keys (imdbId, week-start
date) and the aggregated scaled mean rating. -/
structure AggRow where
  imdbId : Option Nat
  date : Int
  rating : Nat
deriving DecidableEq

/-- Arithmetic mean of a list of rationals (`sum / len`). -/
def ratMean (l : List Rat) : Rat := l.sum / (l.length : Rat)

/-- Cast of a (nonnegative, in-range) float to UInt8: truncation toward zero. -/
def castUInt8 (q : Rat) : Nat := ⌊q⌋.toNat

/-- Group key of a bridged row: (imdbId, timestamp truncated to the week). -/
def aggKey (j : BridgedRow) : Option Nat × Int := (j.imdbId, weekStartDays j.timestamp)

/-- postprocess.py lines 5-24 (`postprocess_movielens`): bridge join, week
truncation, `group_by("imdbId", "date").agg(mean(rating) * 10 cast UInt8)`.
One output row per distinct (imdbId, date) pair; polars does not guarantee a
group order, here groups follow `List.dedup`. -/
def postprocessMovielens (ratings : List RatingRow) (links : List LinkRow) : List AggRow :=
  let joined := bridgeJoin ratings links
  ((joined.map aggKey).dedup).map (fun k =>
    let grp := joined.filter (fun j => aggKey j == k)
    { imdbId := k.1, date := k.2, rating := castUInt8 (10 * ratMean (grp.map (fun j => j.rating))) })

/-- Columns of ratings.csv as loaded. -/
def ratingsCsvColumns : List String := ["userId", "movieId", "rating", "timestamp"]

/-- Columns of links.csv as loaded. -/
def linksCsvColumns : List String := ["movieId", "imdbId", "tmdbId"]

/-- The `group_by("imdbId", "date")` keys of postprocess_movielens. -/
def postprocessMovielensGroupKeys : List String := ["imdbId", "date"]

/-- The aggregation output columns of postprocess_movielens: the single
expression `pl.col("rating").mean().mul(10).cast(pl.UInt8)`, named "rating". -/
def postprocessMovielensAggColumns : List String := ["rating"]

/-- Schema of the postprocess_movielens output table: the group keys followed
by the aggregation columns (and nothing else). -/
def postprocessMovielensColumns : List String :=
  postprocessMovielensGroupKeys ++ postprocessMovielensAggColumns

/-- One row of the postprocessed title_basics table (ids already numeric). -/
structure TitleRow where
  id : Nat
  title : Option String
  year : Option Nat
  runtimeMinutes : Option Nat
  genres : List String
deriving DecidableEq

/-! ## Columnar pipeline: __main__.py -/

/-- __main__.py lines 37-41 and 66-68: semi join of the ratings side on a list
of title ids; a null key matches nothing (polars joins do not match nulls). -/
def semiJoinRatings (rs : List AggRow) (ids : List Nat) : List AggRow :=
  rs.filter (fun r =>
    match r.imdbId with
    | some i => decide (i ∈ ids)
    | none => false)

/-- __main__.py lines 44-48 and 69-71: semi join of the title side on a list of
canonical keys. -/
def semiJoinTitles (ts : List TitleRow) (ids : List Nat) : List TitleRow :=
  ts.filter (fun t => decide (t.id ∈ ids))

/-- Canonical keys present in a ratings-side table (nulls carry no key). -/
def ratingKeys (rs : List AggRow) : List Nat := rs.filterMap (fun r => r.imdbId)

/-- __main__.py line 54: `group_by("imdbId").agg(pl.len())` — per-key row count
of the filtered ratings table. -/
def ratingCounts (rs : List AggRow) : List (Nat × Nat) :=
  ((ratingKeys rs).dedup).map (fun i => (i, (ratingKeys rs).count i))

/-- Rounding half away from zero of a nonnegative rational (Rust `f64::round`
as used by polars' quantile). -/
def roundHalfUp (q : Rat) : Int := ⌊q + 1 / 2⌋

/-- polars `Series.quantile(q)` with the default "nearest" interpolation: the
element of the ascending-sorted values at index `round((n - 1) * q)`. -/
def quantileNearest (xs : List Nat) (q : Rat) : Option Nat :=
  match xs with
  | [] => none
  | _ :: _ =>
    let sorted := xs.insertionSort (· ≤ ·)
    sorted[(roundHalfUp (((xs.length : Rat) - 1) * q)).toNat]?

/-- Modelled from the spec: the P-th percentile of the distribution computed
with linear interpolation between order statistics (the semantics the spec
ascribes to the threshold), for comparison with `quantileNearest`. -/
def quantileLinear (xs : List Nat) (q : Rat) : Option Rat :=
  match xs with
  | [] => none
  | _ :: _ =>
    let sorted := xs.insertionSort (· ≤ ·)
    let pos : Rat := ((xs.length : Rat) - 1) * q
    let i := ⌊pos⌋.toNat
    let lo : Rat := (sorted.getD i 0 : Nat)
    let hi : Rat := (sorted.getD (i + 1) (sorted.getD i 0) : Nat)
    some (lo + (pos - ⌊pos⌋) * (hi - lo))

/-- __main__.py lines 44-71 after the first semi join: title-side semi join,
per-key counts, 0.75-quantile threshold, and the final pruning semi joins of
both sides against the keys at or above the threshold. -/
def afterSemiJoin (rf : List AggRow) (titles : List TitleRow) : List AggRow × List TitleRow :=
  let tf := semiJoinTitles titles (ratingKeys rf)
  let counts := ratingCounts rf
  let thr := quantileNearest (counts.map (fun c => c.2)) (3 / 4)
  let above :=
    match thr with
    | none => []
    | some t => (counts.filter (fun c => decide (c.2 ≥ t))).map (fun c => c.1)
  (semiJoinRatings rf above, semiJoinTitles tf above)

/-- __main__.py lines 37-71 (`main`, up to the parquet writes): the final pair
(ratings_filtered, title_basics_filtered). -/
def mainPipeline (ratings : List AggRow) (titles : List TitleRow) : List AggRow × List TitleRow :=
  afterSemiJoin (semiJoinRatings ratings (titles.map (fun t => t.id))) titles

/-- The intermediate tables after the mutual semi-join closure only
(__main__.py lines 37-48). -/
def stageOne (ratings : List AggRow) (titles : List TitleRow) : List AggRow × List TitleRow :=
  let rf := semiJoinRatings ratings (titles.map (fun t => t.id))
  (rf, semiJoinTitles titles (ratingKeys rf))

/-- Rating events having at least one matching link row. -/
def matchedRatings (ratings : List RatingRow) (links : List LinkRow) : List RatingRow :=
  ratings.filter (fun r => links.any (fun l => l.movieId == r.movieId))

/-! ## Columnar pipeline: postprocess_imdb (postprocess.py lines 27-61) -/

/-- One raw row of title.basics.tsv as loaded (nulls from the `\N` marker). -/
structure ImdbRow where
  tconst : String
  titleType : Option String
  primaryTitle : Option String
  startYear : Option Nat
  endYear : Option Nat
  runtimeMinutes : Option Nat
  genres : Option String
deriving DecidableEq

/-- polars `list.set_difference` at the element level: the members of `l` that
are not in `excl` (used below only for membership and emptiness facts, which do
not depend on the output order of the polars kernel). -/
def listSetDifference (l excl : List String) : List String :=
  l.filter (fun g => decide (g ∉ excl))

/-- postprocess.py lines 40-57: a title_basics row survives postprocess_imdb
iff its genres field is non-null, its titleType is in {movie, tvMovie} (a null
titleType fails `is_in`), and the split genre list minus the excluded set is
nonempty. -/
def postprocessImdbKeep (r : ImdbRow) : Bool :=
  r.genres.isSome &&
  (match r.titleType with
   | none => false
   | some t => t == "movie" || t == "tvMovie") &&
  !(listSetDifference (pySplitComma (r.genres.getD "")) excludedGenresList).isEmpty

/-- The row filter of postprocess_imdb applied to the raw table. -/
def postprocessImdb (rows : List ImdbRow) : List ImdbRow :=
  rows.filter postprocessImdbKeep

/-- Concrete example tables: four titles whose per-key weekly-row counts are
1, 2, 2 and 4, used to exercise the threshold stage. -/
def exampleTitles : List TitleRow :=
  [⟨1, none, none, none, ["Drama"]⟩, ⟨2, none, none, none, ["Drama"]⟩,
   ⟨3, none, none, none, ["Drama"]⟩, ⟨4, none, none, none, ["Drama"]⟩]

/-- Concrete aggregated ratings with per-key counts [1, 2, 2, 4]. -/
def exampleAggRatings : List AggRow :=
  [⟨some 1, 0, 40⟩,
   ⟨some 2, 0, 40⟩, ⟨some 2, 7, 40⟩,
   ⟨some 3, 0, 40⟩, ⟨some 3, 7, 40⟩,
   ⟨some 4, 0, 40⟩, ⟨some 4, 7, 40⟩, ⟨some 4, 14, 40⟩, ⟨some 4, 21, 40⟩]

/-- The spec's weekly-mean example: ratings 3.0, 4.0, 5.0 of one movie with
timestamps inside the week of Monday 2020-01-06 (day 18267 since epoch). -/
def exampleWeekRatings : List RatingRow :=
  [⟨7, 10, 3, 1578268800⟩, ⟨8, 10, 4, 1578355200⟩, ⟨9, 10, 5, 1578441600⟩]

/-- A single link row mapping the example movie to the canonical id 1. -/
def exampleLinks : List LinkRow := [⟨10, 1, none⟩]

/-! ## Helper lemmas -/

/-- A value survives the sparse filter iff it is neither null, nor the empty
string, nor the raw missing marker. -/
theorem sparseKeep_iff (v : JVal) :
    sparseKeep v = true ↔ v ≠ JVal.jnull ∧ v ≠ JVal.jstr "" ∧ v ≠ JVal.jstr "\\N" := by
  cases v <;> simp [sparseKeep]

/-- Membership in the generic set-difference filter. -/
theorem mem_listSetDifference {g : String} {l excl : List String} :
    g ∈ listSetDifference l excl ↔ g ∈ l ∧ g ∉ excl := by
  simp [listSetDifference]

/-- Membership in the genre-cleaning filter of the document export. -/
theorem mem_exportGenres {g s : String} (h1 : s ≠ "") (h2 : s ≠ "\\N") :
    g ∈ exportGenres (some s) ↔ g ∈ splitStrip s ∧ g ∉ excludedGenresList := by
  simp [exportGenres, h1, h2]

/-- C3 counterexample: a record whose titleType is missing (null) but whose
genre field is an includable "Comedy" is excluded by the combined title filter
of the document pipeline and by the row filter of the columnar pipeline,
contradicting the claim that a missing titleType always passes the type filter. -/
theorem missing_titleType_is_excluded_counterexample :
    (MovieRow.titleType ⟨5, "tt0000005", none, some "Comedy", none, none, none, none⟩ = none
      ∧ filterMovieRows [⟨5, "tt0000005", none, some "Comedy", none, none, none, none⟩] = [])
    ∧ (ImdbRow.titleType ⟨"tt0000005", none, none, none, none, none, some "Comedy"⟩ = none
      ∧ postprocessImdb [⟨"tt0000005", none, none, none, none, none, some "Comedy"⟩] = []) := by
  decide

/-- C3 (amended): the standalone first-stage filter of the document pipeline is
null-permissive, but the combined genre/type predicate normalizes a missing
titleType to "", which is outside allowedTitleTypes, so the record is excluded;
likewise postprocess_imdb's `is_in` filter excludes a null titleType. A record
passes the combined filtering only when its titleType is present and allowed. -/
theorem missing_titleType_is_excluded (r : MovieRow) (s : ImdbRow) :
    (r.titleType = none → titleTypeNullPermissive r = true)
    ∧ (r.titleType = none → genreTypePredicate r = false)
    ∧ (genreTypePredicate r = true → ∃ t, r.titleType = some t ∧ t ∈ allowedTitleTypesList)
    ∧ (s.titleType = none → postprocessImdbKeep s = false) := by
  refine ⟨?_, ?_, ?_, ?_⟩
  · intro h
    simp [titleTypeNullPermissive, h]
  · intro h
    simp [genreTypePredicate, should_include_movie, h, allowedTitleTypesList]
  · intro hg
    cases h : r.titleType with
    | none =>
      rw [genreTypePredicate, should_include_movie] at hg
      simp [h, allowedTitleTypesList] at hg
    | some t =>
      refine ⟨t, rfl, ?_⟩
      rw [genreTypePredicate, should_include_movie] at hg
      by_contra hmem
      simp [h, hmem] at hg
  · intro h
    simp [postprocessImdbKeep, h]

/-- C3 witness: the amended theorem applied to the counterexample record. -/
theorem missing_titleType_is_excluded_witness :
    genreTypePredicate ⟨5, "tt0000005", none, some "Comedy", none, none, none, none⟩ = false :=
  (missing_titleType_is_excluded ⟨5, "tt0000005", none, some "Comedy", none, none, none, none⟩
    ⟨"tt0000005", none, none, none, none, none, none⟩).2.1 rfl

/-- C6: genre cleaning removes every excluded tag; the "no genres" sentinel and
a missing genre field both normalize to the empty list; a record whose genre
set is empty after removal is excluded entirely in both pipeline variants; and
the two concrete spec scenarios behave as claimed ("Comedy,Short" is kept with
genres ["Comedy"], "Short" is fully excluded). -/
theorem genre_cleaning_empty_exclusion (s g : String) (r : MovieRow) (t : ImdbRow) :
    (genresSentinel s = true → parseGenresRaw s = [])
    ∧ (g ∈ exportGenres r.genres → g ∉ excludedGenresList)
    ∧ ((parseGenresRaw (r.genres.getD "")).filter
         (fun g => decide (g ∉ excludedGenresList)) = [] → genreTypePredicate r = false)
    ∧ (t.genres = none → postprocessImdbKeep t = false)
    ∧ (listSetDifference (pySplitComma (t.genres.getD "")) excludedGenresList = []
        → postprocessImdbKeep t = false)
    ∧ (filterMovieRows
        [⟨100, "tt0000100", some "movie", some "Comedy,Short", none, none, none, none⟩,
         ⟨200, "tt0000200", some "movie", some "Short", none, none, none, none⟩]
        = [⟨100, "tt0000100", some "movie", some "Comedy,Short", none, none, none, none⟩])
    ∧ exportGenres (some "Comedy,Short") = ["Comedy"]
    ∧ postprocessImdbKeep ⟨"tt0000100", some "movie", none, none, none, none, some "Comedy,Short"⟩ = true
    ∧ postprocessImdbKeep ⟨"tt0000200", some "movie", none, none, none, none, some "Short"⟩ = false := by
  refine ⟨?_, ?_, ?_, ?_, ?_, by decide, by decide, by decide, by decide⟩
  · intro h
    simp [parseGenresRaw, h]
  · intro hg
    cases hrg : r.genres with
    | none => rw [hrg] at hg; simp [exportGenres] at hg
    | some s' =>
      rw [hrg] at hg
      by_cases h0 : s' = "" ∨ s' = "\\N"
      · simp [exportGenres, h0] at hg
      · rw [exportGenres] at hg
        simp only [h0, if_false] at hg
        have := List.mem_filter.mp hg
        simpa using this.2
  · intro h
    rw [genreTypePredicate, should_include_movie]
    by_cases hty : (r.titleType.getD "") ∉ allowedTitleTypesList
    · simp [hty]
    · simp only [List.filter_eq_nil_iff, decide_eq_true_eq, not_not] at h
      simp [hty]
      exact h
  · intro h
    simp [postprocessImdbKeep, h]
  · intro h
    rw [postprocessImdbKeep]
    simp [h]

/-- C6 witness: the empty-after-removal implication applied to the "Short"-only
record of the spec scenario. -/
theorem genre_cleaning_empty_exclusion_witness :
    genreTypePredicate ⟨200, "tt0000200", some "movie", some "Short", none, none, none, none⟩ = false :=
  (genre_cleaning_empty_exclusion "" "g"
      ⟨200, "tt0000200", some "movie", some "Short", none, none, none, none⟩
      ⟨"tt0000200", some "movie", none, none, none, none, some "Short"⟩).2.2.1 (by decide)

/-- C7: the cleaned genre list is a sublist of the parsed genre list (the
surviving tags keep their original relative order; cleaning never re-sorts),
tag comparison is exact-string membership in the exclusion set, and the
lowercase tag "short" survives although "Short" is excluded (case-sensitive). -/
theorem genre_cleaning_preserves_order (s g : String) (gs excl : List String) :
    (exportGenres (some s)).Sublist (splitStrip s)
    ∧ (listSetDifference gs excl).Sublist gs
    ∧ (s ≠ "" → s ≠ "\\N" → (g ∈ exportGenres (some s) ↔ g ∈ splitStrip s ∧ g ∉ excludedGenresList))
    ∧ (g ∈ listSetDifference gs excl ↔ g ∈ gs ∧ g ∉ excl)
    ∧ exportGenres (some "short,Comedy") = ["short", "Comedy"] := by
  refine ⟨?_, List.filter_sublist _, mem_exportGenres, mem_listSetDifference, by decide⟩
  rw [exportGenres]
  by_cases h0 : s = "" ∨ s = "\\N"
  · simp only [h0, if_true]
    exact List.nil_sublist _
  · simp only [h0, if_false]
    exact List.filter_sublist _

/-- C7 witness: the exact-membership characterization applied to the concrete
"Comedy,Short" genre field. -/
theorem genre_cleaning_preserves_order_witness :
    "Comedy" ∈ exportGenres (some "Comedy,Short") :=
  ((genre_cleaning_preserves_order "Comedy,Short" "Comedy" [] []).2.2.1
      (by decide) (by decide)).mpr (by decide)

/-- C9: every field of an exported movie object whose value is null, the empty
string, or the raw missing marker is omitted from the object entirely by the
sparse encoding; in particular a movie whose endYear is absent has no "endYear"
key in its exported object. -/
theorem sparse_export_omits_missing (r : MovieRow) (reviews : List (Rat × Int))
    (h : r.endYear = none) :
    "endYear" ∉ (sparseObj (movieObj r reviews)).map Prod.fst
    ∧ ∀ kv ∈ sparseObj (movieObj r reviews),
        kv.2 ≠ JVal.jnull ∧ kv.2 ≠ JVal.jstr "" ∧ kv.2 ≠ JVal.jstr "\\N" := by
  constructor
  · intro hmem
    simp only [sparseObj, movieObj, h, jOfOptInt, List.mem_map, List.mem_filter] at hmem
    obtain ⟨kv, ⟨hkv, hkeep⟩, hfst⟩ := hmem
    simp only [List.mem_cons, List.not_mem_nil, or_false] at hkv
    rcases hkv with rfl | rfl | rfl | rfl | rfl | rfl | rfl | rfl <;>
      simp_all [sparseKeep]
  · intro kv hkv
    exact (sparseKeep_iff kv.2).mp (List.mem_filter.mp hkv).2

/-- C9 witness: the theorem applied to a concrete movie row without endYear. -/
theorem sparse_export_omits_missing_witness :
    "endYear" ∉ (sparseObj (movieObj ⟨1, "tt0000001", some "movie", some "Comedy",
        some "A Title", some 2000, none, some 90⟩ [])).map Prod.fst :=
  (sparse_export_omits_missing ⟨1, "tt0000001", some "movie", some "Comedy",
      some "A Title", some 2000, none, some 90⟩ [] rfl).1

/-- C10: a retained movie with zero matching rating events is still emitted and
its object carries the key "reviews" bound to the empty list; more generally
every emitted object has a "reviews" entry, because the sparse filter removes
only null, empty-string, and missing-marker values, never an empty list. -/
theorem empty_reviews_list_kept (movies : List MovieRow) (ratings : List RatingRow) (r : MovieRow)
    (hr : r ∈ movies) (ht : ¬r.tconst = "")
    (hnone : ratings.filter (fun x => x.movieId == r.movieId) = []) :
    sparseObj (movieObj r []) ∈ buildResult movies ratings
    ∧ ("reviews", JVal.jreviews []) ∈ sparseObj (movieObj r [])
    ∧ ∀ obj ∈ buildResult movies ratings, ∃ rl, ("reviews", JVal.jreviews rl) ∈ obj := by
  refine ⟨?_, ?_, ?_⟩
  · rw [buildResult]
    refine List.mem_filterMap.mpr ⟨r, hr, ?_⟩
    rw [if_neg ht]
    rw [hnone]
    rfl
  · rw [sparseObj]
    refine List.mem_filter.mpr ⟨?_, rfl⟩
    simp [movieObj]
  · intro obj hobj
    rw [buildResult] at hobj
    rcases List.mem_filterMap.mp hobj with ⟨m, hm, hf⟩
    by_cases hm0 : m.tconst = ""
    · rw [if_pos hm0] at hf
      cases hf
    · rw [if_neg hm0] at hf
      cases hf
      refine ⟨List.map (fun x => (x.rating, x.timestamp))
        (List.take 200 (List.filter (fun x => x.movieId == m.movieId) ratings)), ?_⟩
      rw [sparseObj]
      refine List.mem_filter.mpr ⟨?_, rfl⟩
      simp [movieObj]

/-- C10 witness: the theorem applied to one concrete retained movie with no
matching rating events. -/
theorem empty_reviews_list_kept_witness :
    ("reviews", JVal.jreviews []) ∈ sparseObj (movieObj ⟨1, "tt0000001", some "movie",
        some "Comedy", some "A Title", some 2000, none, some 90⟩ []) :=
  (empty_reviews_list_kept
      [⟨1, "tt0000001", some "movie", some "Comedy", some "A Title", some 2000, none, some 90⟩]
      [] ⟨1, "tt0000001", some "movie", some "Comedy", some "A Title", some 2000, none, some 90⟩
      (by decide) (by decide) rfl).2.1

/-- Key membership in a ratings-side semi join. -/
theorem mem_ratingKeys_semiJoinRatings {rs : List AggRow} {ids : List Nat} {k : Nat} :
    k ∈ ratingKeys (semiJoinRatings rs ids) ↔ (∃ r ∈ rs, r.imdbId = some k) ∧ k ∈ ids := by
  simp only [ratingKeys, semiJoinRatings, List.mem_filterMap, List.mem_filter]
  constructor
  · rintro ⟨r, ⟨hr, hp⟩, hk⟩
    rw [hk] at hp
    simp only [decide_eq_true_eq] at hp
    exact ⟨⟨r, hr, hk⟩, hp⟩
  · rintro ⟨⟨r, hr, hk⟩, hin⟩
    refine ⟨r, ⟨hr, ?_⟩, hk⟩
    rw [hk]
    simpa using hin

/-- Key membership in a plain ratings-side table. -/
theorem mem_ratingKeys {rs : List AggRow} {k : Nat} :
    k ∈ ratingKeys rs ↔ ∃ r ∈ rs, r.imdbId = some k := by
  simp [ratingKeys, List.mem_filterMap]

/-- Key membership in a title-side semi join. -/
theorem mem_map_id_semiJoinTitles {ts : List TitleRow} {ids : List Nat} {k : Nat} :
    k ∈ (semiJoinTitles ts ids).map (fun t => t.id) ↔ (∃ t ∈ ts, t.id = k) ∧ k ∈ ids := by
  simp only [semiJoinTitles, List.mem_map, List.mem_filter, decide_eq_true_eq]
  constructor
  · rintro ⟨t, ⟨ht, hin⟩, rfl⟩
    exact ⟨⟨t, ht, rfl⟩, hin⟩
  · rintro ⟨⟨t, ht, rfl⟩, hin⟩
    exact ⟨t, ⟨ht, hin⟩, rfl⟩

/-- Membership in the above-threshold key list of __main__.py. -/
theorem mem_aboveThreshold {rf : List AggRow} {t k : Nat} :
    k ∈ ((ratingCounts rf).filter (fun c => decide (c.2 ≥ t))).map (fun c => c.1)
      ↔ k ∈ ratingKeys rf ∧ t ≤ (ratingKeys rf).count k := by
  simp only [ratingCounts, List.mem_map, List.mem_filter, decide_eq_true_eq, ge_iff_le]
  constructor
  · rintro ⟨c, ⟨⟨i, hi, rfl⟩, hcnt⟩, rfl⟩
    exact ⟨List.mem_dedup.mp hi, hcnt⟩
  · rintro ⟨hk, hcnt⟩
    exact ⟨(k, (ratingKeys rf).count k), ⟨⟨k, List.mem_dedup.mpr hk, rfl⟩, hcnt⟩, rfl⟩

/-- The first-stage key-set equality: after the mutual semi-join closure the
ratings side and the titles side carry the same canonical keys. -/
theorem stageOne_key_equality (ratings : List AggRow) (titles : List TitleRow) (k : Nat) :
    k ∈ ratingKeys (stageOne ratings titles).1
      ↔ k ∈ (stageOne ratings titles).2.map (fun t => t.id) := by
  simp only [stageOne]
  constructor
  · intro hk
    rw [mem_map_id_semiJoinTitles]
    refine ⟨?_, hk⟩
    have h2 := (mem_ratingKeys_semiJoinRatings.mp hk).2
    simpa [List.mem_map] using h2
  · intro hk
    exact (mem_map_id_semiJoinTitles.mp hk).2

/-- Retention through the pruning stage: given the computed threshold, a key
survives to the final ratings table iff it survived the closure and its row
count reaches the threshold. -/
theorem mainPipeline_retained_iff (ratings : List AggRow) (titles : List TitleRow) (k t : Nat)
    (hthr : quantileNearest
      ((ratingCounts (stageOne ratings titles).1).map (fun c => c.2)) (3 / 4) = some t) :
    k ∈ ratingKeys (mainPipeline ratings titles).1
      ↔ k ∈ ratingKeys (stageOne ratings titles).1
          ∧ t ≤ (ratingKeys (stageOne ratings titles).1).count k := by
  simp only [stageOne] at hthr ⊢
  simp only [mainPipeline, afterSemiJoin, hthr]
  rw [mem_ratingKeys_semiJoinRatings, mem_aboveThreshold]
  rw [← mem_ratingKeys]
  tauto

/-- The final key-set equality of the two output tables. -/
theorem mainPipeline_key_equality (ratings : List AggRow) (titles : List TitleRow) (k : Nat) :
    k ∈ ratingKeys (mainPipeline ratings titles).1
      ↔ k ∈ (mainPipeline ratings titles).2.map (fun t => t.id) := by
  have h1 := stageOne_key_equality ratings titles
  simp only [stageOne] at h1
  simp only [mainPipeline, afterSemiJoin]
  rw [mem_ratingKeys_semiJoinRatings, mem_map_id_semiJoinTitles]
  rw [← mem_ratingKeys]
  constructor
  · rintro ⟨hk, hA⟩
    have hmap := (h1 k).mp hk
    rw [List.mem_map] at hmap
    exact ⟨hmap, hA⟩
  · rintro ⟨⟨tt, htt, rfl⟩, hA⟩
    refine ⟨?_, hA⟩
    have hmem : tt.id ∈ (semiJoinTitles titles (ratingKeys (semiJoinRatings ratings (titles.map (fun t => t.id))))).map (fun t => t.id) :=
      List.mem_map.mpr ⟨tt, htt, rfl⟩
    exact (h1 tt.id).mpr hmem

/-- A "nearest"-interpolated quantile is an order statistic: it is an element
of the distribution. -/
theorem quantileNearest_mem {xs : List Nat} {q : Rat} {t : Nat}
    (h : quantileNearest xs q = some t) : t ∈ xs := by
  cases xs with
  | nil => cases h
  | cons a l =>
    simp only [quantileNearest] at h
    have hmem := List.getElem?_mem h
    exact (List.perm_insertionSort _ _).mem_iff.mp hmem

/-- C2: after the mutual semi-join closure the set of canonical keys of the
events/ratings table equals that of the titles table, and the equality still
holds after the popularity-threshold pruning of both sides. -/
theorem mutual_semijoin_closure_key_sets (ratings : List AggRow) (titles : List TitleRow) (k : Nat) :
    (k ∈ ratingKeys (stageOne ratings titles).1
      ↔ k ∈ (stageOne ratings titles).2.map (fun t => t.id))
    ∧ (k ∈ ratingKeys (mainPipeline ratings titles).1
      ↔ k ∈ (mainPipeline ratings titles).2.map (fun t => t.id)) :=
  ⟨stageOne_key_equality ratings titles k, mainPipeline_key_equality ratings titles k⟩

/-- C5 (amended): the popularity threshold is the 0.75 quantile of the per-key
count distribution computed with polars' default "nearest" interpolation, hence
itself one of the counts (an order statistic, not a linear interpolation), and
exactly the canonical keys whose count is ≥ that threshold are retained. -/
theorem popularity_threshold_nearest (ratings : List AggRow) (titles : List TitleRow) (k t : Nat)
    (hthr : quantileNearest
      ((ratingCounts (stageOne ratings titles).1).map (fun c => c.2)) (3 / 4) = some t) :
    t ∈ (ratingCounts (stageOne ratings titles).1).map (fun c => c.2)
    ∧ (k ∈ ratingKeys (mainPipeline ratings titles).1 ↔
        k ∈ ratingKeys (stageOne ratings titles).1
          ∧ t ≤ (ratingKeys (stageOne ratings titles).1).count k) :=
  ⟨quantileNearest_mem hthr, mainPipeline_retained_iff ratings titles k t hthr⟩

/-- C5 witness: the amended theorem applied to the concrete example tables. -/
theorem popularity_threshold_nearest_witness :
    2 ∈ ratingKeys (mainPipeline exampleAggRatings exampleTitles).1 := by
  have hc : ((ratingCounts (stageOne exampleAggRatings exampleTitles).1).map (fun c => c.2))
      = [1, 2, 2, 4] := by decide
  have hthr : quantileNearest
      ((ratingCounts (stageOne exampleAggRatings exampleTitles).1).map (fun c => c.2)) (3 / 4)
      = some 2 := by
    rw [hc]
    simp only [quantileNearest, roundHalfUp]
    norm_num
    decide
  exact ((popularity_threshold_nearest exampleAggRatings exampleTitles 2 2 hthr).2).mpr (by decide)

/-- C5 counterexample: on concrete tables whose per-key counts are [1, 2, 2, 4]
the 0.75 percentile with linear interpolation is 5/2, but the code's threshold
is the order statistic 2, and key 2 — whose count 2 is strictly below the
linear-interpolation percentile — is retained by the pruning; so the claim's
linear-interpolation description of the threshold and of the retained key set
is false on the code. -/
theorem popularity_threshold_not_linear_counterexample :
    quantileLinear
      ((ratingCounts (stageOne exampleAggRatings exampleTitles).1).map (fun c => c.2)) (3 / 4)
      = some (5 / 2)
    ∧ quantileNearest
      ((ratingCounts (stageOne exampleAggRatings exampleTitles).1).map (fun c => c.2)) (3 / 4)
      = some 2
    ∧ (ratingKeys (stageOne exampleAggRatings exampleTitles).1).count 2 = 2
    ∧ ¬((5 : Rat) / 2 ≤ (((ratingKeys (stageOne exampleAggRatings exampleTitles).1).count 2 : Nat) : Rat))
    ∧ 2 ∈ ratingKeys (mainPipeline exampleAggRatings exampleTitles).1 := by
  have hc : ((ratingCounts (stageOne exampleAggRatings exampleTitles).1).map (fun c => c.2))
      = [1, 2, 2, 4] := by decide
  have hthr : quantileNearest
      ((ratingCounts (stageOne exampleAggRatings exampleTitles).1).map (fun c => c.2)) (3 / 4)
      = some 2 := by
    rw [hc]
    simp only [quantileNearest, roundHalfUp]
    norm_num
    decide
  refine ⟨?_, hthr, by decide, ?_, ?_⟩
  · rw [hc]
    simp only [quantileLinear]
    norm_num [show Int.toNat 2 = 2 from rfl]
  · rw [show (ratingKeys (stageOne exampleAggRatings exampleTitles).1).count 2 = 2 by decide]
    norm_num
  · exact (mainPipeline_retained_iff exampleAggRatings exampleTitles 2 2 hthr).mpr (by decide)

/-- Every bridged row carries the rating of one of the input events. -/
theorem bridgeJoin_rating_mem {ratings : List RatingRow} {links : List LinkRow} {j : BridgedRow}
    (h : j ∈ bridgeJoin ratings links) : ∃ x ∈ ratings, j.rating = x.rating := by
  rw [bridgeJoin] at h
  rcases List.mem_flatMap.mp h with ⟨r, hr, hj⟩
  refine ⟨r, hr, ?_⟩
  cases hfl : links.filter (fun l => l.movieId == r.movieId) with
  | nil =>
    rw [hfl] at hj
    simp only [List.mem_singleton] at hj
    rw [hj]
  | cons m ms =>
    rw [hfl] at hj
    rcases List.mem_map.mp hj with ⟨l, _, hl⟩
    rw [← hl]

/-- The mean of a nonempty list of rationals bounded by B is at most B. -/
theorem ratMean_le_of_le {l : List Rat} {B : Rat} (hne : l ≠ []) (hb : ∀ x ∈ l, x ≤ B) :
    ratMean l ≤ B := by
  have hlen : 0 < (l.length : Rat) := by
    have := List.length_pos.mpr hne
    exact_mod_cast this
  rw [ratMean, div_le_iff₀ hlen]
  have hsum := List.sum_le_card_nsmul l B hb
  rw [nsmul_eq_mul] at hsum
  calc l.sum ≤ (l.length : Rat) * B := hsum
    _ = B * (l.length : Rat) := by ring

/-- The UInt8 truncation of a rational bounded by a natural number n is ≤ n. -/
theorem castUInt8_le_of_le {q : Rat} {n : Nat} (h : q ≤ (n : Rat)) : castUInt8 q ≤ n := by
  rw [castUInt8]
  have hfl : ⌊q⌋ ≤ (n : Int) := by
    calc ⌊q⌋ ≤ ⌊((n : Rat))⌋ := Int.floor_le_floor h
      _ = (n : Int) := Int.floor_natCast n
  exact Int.toNat_le.mpr hfl

/-- C4 (amended): the aggregator emits exactly one bucket per distinct
(canonical key, week start) pair of the bridged event set; a bucket carries the
arithmetic mean rating of its group scaled by 10 and truncated to an integer —
at most 50 whenever all input ratings lie in [0, 5] — but no event count; for
ratings [3.0, 4.0, 5.0] of one key in the week starting 2020-01-06 (day 18267)
the aggregator emits the single bucket with scaled mean 40. -/
theorem weekly_bucket_mean (ratings : List RatingRow) (links : List LinkRow)
    (hr : ∀ x ∈ ratings, 0 ≤ x.rating ∧ x.rating ≤ 5) :
    ((postprocessMovielens ratings links).map (fun a => (a.imdbId, a.date))).Nodup
    ∧ (∀ p : Option Nat × Int,
        p ∈ (postprocessMovielens ratings links).map (fun a => (a.imdbId, a.date))
          ↔ p ∈ (bridgeJoin ratings links).map aggKey)
    ∧ (∀ a ∈ postprocessMovielens ratings links,
        a.rating = castUInt8 (10 * ratMean (((bridgeJoin ratings links).filter
          (fun j => aggKey j == (a.imdbId, a.date))).map (fun j => j.rating)))
        ∧ a.rating ≤ 50)
    ∧ postprocessMovielens exampleWeekRatings exampleLinks = [⟨some 1, 18267, 40⟩] := by
  have hmapmk : ∀ (keysl : List (Option Nat × Int)) (f : Option Nat × Int → Nat),
      (keysl.map (fun k => ({ imdbId := k.1, date := k.2, rating := f k } : AggRow))).map
        (fun a => (a.imdbId, a.date)) = keysl := by
    intro keysl f
    induction keysl with
    | nil => rfl
    | cons k t ih => simp [ih]
  have hmapmap : ∀ (rs : List RatingRow) (ls : List LinkRow),
      (postprocessMovielens rs ls).map (fun a => (a.imdbId, a.date))
        = ((bridgeJoin rs ls).map aggKey).dedup := by
    intro rs ls
    rw [postprocessMovielens]
    exact hmapmk _ (fun k => castUInt8 (10 * ratMean (((bridgeJoin rs ls).filter
      (fun j => aggKey j == k)).map (fun j => j.rating))))
  refine ⟨?_, ?_, ?_, ?_⟩
  · rw [hmapmap]
    exact List.nodup_dedup _
  · intro p
    rw [hmapmap]
    exact List.mem_dedup
  · intro a ha
    rw [postprocessMovielens] at ha
    rcases List.mem_map.mp ha with ⟨k, hk, rfl⟩
    refine ⟨rfl, ?_⟩
    have hkmem : k ∈ (bridgeJoin ratings links).map aggKey := List.mem_dedup.mp hk
    rcases List.mem_map.mp hkmem with ⟨j0, hj0, hj0k⟩
    have hj0grp : j0 ∈ (bridgeJoin ratings links).filter (fun j => aggKey j == k) :=
      List.mem_filter.mpr ⟨hj0, by rw [hj0k]; simp⟩
    have hne : ((bridgeJoin ratings links).filter (fun j => aggKey j == k)).map
        (fun j => j.rating) ≠ [] := by
      intro hcon
      rw [List.map_eq_nil_iff] at hcon
      rw [hcon] at hj0grp
      cases hj0grp
    have hb : ∀ x ∈ ((bridgeJoin ratings links).filter (fun j => aggKey j == k)).map
        (fun j => j.rating), x ≤ 5 := by
      intro x hx
      rcases List.mem_map.mp hx with ⟨j, hj, rfl⟩
      have hjb := (List.mem_filter.mp hj).1
      rcases bridgeJoin_rating_mem hjb with ⟨e, he, hje⟩
      rw [hje]
      exact (hr e he).2
    have hmean := ratMean_le_of_le hne hb
    have h50 : 10 * ratMean (((bridgeJoin ratings links).filter
        (fun j => aggKey j == k)).map (fun j => j.rating)) ≤ ((50 : Nat) : Rat) := by
      push_cast
      nlinarith [hmean]
    exact castUInt8_le_of_le h50
  · have hpost : postprocessMovielens exampleWeekRatings exampleLinks
        = [⟨some 1, 18267, castUInt8 (10 * ratMean [3, 4, 5])⟩] := rfl
    have h40 : castUInt8 (10 * ratMean [3, 4, 5]) = 40 := by
      norm_num [castUInt8, ratMean, show Int.toNat 40 = 40 from rfl]
    rw [hpost, h40]

/-- Cons equation of the bridge join. -/
theorem bridgeJoin_cons (r : RatingRow) (t : List RatingRow) (links : List LinkRow) :
    bridgeJoin (r :: t) links
      = (match links.filter (fun l => l.movieId == r.movieId) with
         | [] => [⟨none, r.rating, r.timestamp⟩]
         | m :: ms => (m :: ms).map (fun l => ⟨some l.imdbId, r.rating, r.timestamp⟩))
        ++ bridgeJoin t links := by
  rw [bridgeJoin, bridgeJoin, List.flatMap_cons]

/-- Deduplication commutes with filtering. -/
theorem dedup_filter_comm {α : Type} [DecidableEq α] (p : α → Bool) (l : List α) :
    (l.filter p).dedup = l.dedup.filter p := by
  induction l with
  | nil => rfl
  | cons a t ih =>
    by_cases hp : p a = true
    · rw [List.filter_cons_of_pos hp]
      by_cases hmem : a ∈ t
      · rw [List.dedup_cons_of_mem hmem,
          List.dedup_cons_of_mem (List.mem_filter.mpr ⟨hmem, hp⟩), ih]
      · rw [List.dedup_cons_of_not_mem hmem,
          List.dedup_cons_of_not_mem (fun hc => hmem (List.mem_filter.mp hc).1),
          List.filter_cons_of_pos hp, ih]
    · rw [List.filter_cons_of_neg hp]
      by_cases hmem : a ∈ t
      · rw [List.dedup_cons_of_mem hmem, ih]
      · rw [List.dedup_cons_of_not_mem hmem, List.filter_cons_of_neg hp, ih]

/-- Restricting the bridge join to the events having a link row is the same as
keeping only the joined rows with a present canonical key. -/
theorem bridgeJoin_matchedRatings (ratings : List RatingRow) (links : List LinkRow) :
    bridgeJoin (matchedRatings ratings links) links
      = (bridgeJoin ratings links).filter (fun j => j.imdbId.isSome) := by
  induction ratings with
  | nil => rfl
  | cons r t ih =>
    simp only [matchedRatings, List.filter_cons] at *
    by_cases hany : links.any (fun l => l.movieId == r.movieId) = true
    · rw [if_pos hany]
      cases hfl : links.filter (fun l => l.movieId == r.movieId) with
      | nil =>
        rcases List.any_eq_true.mp hany with ⟨l, hl, hbeq⟩
        have : l ∈ links.filter (fun l => l.movieId == r.movieId) :=
          List.mem_filter.mpr ⟨hl, hbeq⟩
        rw [hfl] at this
        cases this
      | cons m ms =>
        rw [bridgeJoin_cons, bridgeJoin_cons, hfl, List.filter_append, ih]
        have hmap : ((m :: ms).map
            (fun l => (⟨some l.imdbId, r.rating, r.timestamp⟩ : BridgedRow))).filter
              (fun j => j.imdbId.isSome)
            = (m :: ms).map (fun l => (⟨some l.imdbId, r.rating, r.timestamp⟩ : BridgedRow)) := by
          apply List.filter_eq_self.mpr
          intro b hb
          rcases List.mem_map.mp hb with ⟨l, _, rfl⟩
          rfl
        rw [hmap]
    · rw [if_neg hany]
      have hfl : links.filter (fun l => l.movieId == r.movieId) = [] := by
        rw [List.filter_eq_nil_iff]
        intro l hl hbeq
        exact hany (List.any_eq_true.mpr ⟨l, hl, hbeq⟩)
      rw [bridgeJoin_cons, hfl, List.filter_append, ih]
      rfl

/-- Pushing the present-key row filter through the per-key aggregation map. -/
theorem filter_map_mk (keysl : List (Option Nat × Int)) (f g : Option Nat × Int → Nat)
    (hfg : ∀ k : Option Nat × Int, k.1.isSome = true → f k = g k) :
    (keysl.filter (fun k => k.1.isSome)).map
        (fun k => ({ imdbId := k.1, date := k.2, rating := f k } : AggRow))
      = (keysl.map (fun k => ({ imdbId := k.1, date := k.2, rating := g k } : AggRow))).filter
          (fun a => a.imdbId.isSome) := by
  induction keysl with
  | nil => rfl
  | cons k t ih =>
    simp only [List.filter_cons, List.map_cons]
    by_cases hk : k.1.isSome = true
    · simp [hk, ih, hfg k hk]
    · simp [hk, ih]

/-- Postprocessing only the matched events yields exactly the aggregated rows
with a present canonical key. -/
theorem postprocessMovielens_matched (ratings : List RatingRow) (links : List LinkRow) :
    postprocessMovielens (matchedRatings ratings links) links
      = (postprocessMovielens ratings links).filter (fun a => a.imdbId.isSome) := by
  rw [postprocessMovielens, postprocessMovielens, bridgeJoin_matchedRatings]
  have hkeys : ((bridgeJoin ratings links).filter (fun j => j.imdbId.isSome)).map aggKey
      = ((bridgeJoin ratings links).map aggKey).filter (fun k => k.1.isSome) :=
    by
      rw [List.filter_map]
      rfl
  rw [hkeys, dedup_filter_comm]
  refine filter_map_mk _ _ _ ?_
  intro k hks
  have hgrp : ((bridgeJoin ratings links).filter (fun j => j.imdbId.isSome)).filter
      (fun j => aggKey j == k) = (bridgeJoin ratings links).filter (fun j => aggKey j == k) := by
    rw [List.filter_filter]
    apply List.filter_congr
    intro j _
    by_cases hbeq : aggKey j = k
    · have hjs : j.imdbId.isSome = true := by
        rw [show j.imdbId = k.1 from congrArg Prod.fst hbeq]
        exact hks
      simp [hbeq, hjs]
    · simp [hbeq]
  rw [hgrp]

/-- The semi join ignores rows with a null key, so pre-filtering them away
changes nothing. -/
theorem semiJoinRatings_filter_isSome (rs : List AggRow) (ids : List Nat) :
    semiJoinRatings (rs.filter (fun a => a.imdbId.isSome)) ids = semiJoinRatings rs ids := by
  rw [semiJoinRatings, semiJoinRatings, List.filter_filter]
  apply List.filter_congr
  intro a _
  cases ha : a.imdbId <;> simp [ha]

/-- C8 (amended): the bridge join is a left join, so a rating event whose
movieSourceId has no link row survives it as a row with a null canonical key;
such events are dropped at the later semi join against the titles and
contribute nothing to the pipeline's outputs — the final tables are unchanged
when all unmatched events are removed from the input. -/
theorem unmatched_events_contribute_nothing (ratings : List RatingRow) (links : List LinkRow)
    (titles : List TitleRow) (r : RatingRow) (hno : ∀ l ∈ links, ¬l.movieId = r.movieId) :
    bridgeJoin [r] links = [⟨none, r.rating, r.timestamp⟩]
    ∧ mainPipeline (postprocessMovielens ratings links) titles
      = mainPipeline (postprocessMovielens (matchedRatings ratings links) links) titles := by
  constructor
  · have hfl : links.filter (fun l => l.movieId == r.movieId) = [] := by
      rw [List.filter_eq_nil_iff]
      intro l hl hbeq
      exact hno l hl (by simpa using hbeq)
    rw [bridgeJoin_cons, hfl]
    rfl
  · rw [postprocessMovielens_matched, mainPipeline, mainPipeline,
      semiJoinRatings_filter_isSome]

/-- C8 witness: the amended theorem applied to a concrete unmatched event. -/
theorem unmatched_events_contribute_nothing_witness :
    bridgeJoin [⟨1, 99, 3, 0⟩] ([] : List LinkRow) = [⟨none, 3, 0⟩] :=
  (unmatched_events_contribute_nothing [] [] [] ⟨1, 99, 3, 0⟩ (by simp)).1

/-- C8 counterexample: with an empty link table the bridge join — a left join —
keeps the unmatched rating event as a row with a null canonical key instead of
dropping it; the claim that such events are dropped *by the bridge join* is
false (they are dropped only at the subsequent semi join). -/
theorem unmatched_event_survives_bridge_join :
    bridgeJoin [⟨1, 99, 3, 0⟩] [] = [⟨none, 3, 0⟩]
    ∧ bridgeJoin [⟨1, 99, 3, 0⟩] [] ≠ [] := by
  decide

/-- C4 witness: the amended theorem applied to the concrete example of the
claim (ratings 3.0, 4.0, 5.0 in the week of 2020-01-06). -/
theorem weekly_bucket_mean_witness :
    postprocessMovielens exampleWeekRatings exampleLinks = [⟨some 1, 18267, 40⟩] :=
  (weekly_bucket_mean exampleWeekRatings exampleLinks (by decide)).2.2.2

/-- C4 counterexample: the aggregated table's schema is just the two group keys
plus the single mean-rating column — there is no event-count column — and on the
claim's own example the emitted bucket carries only the scaled mean 40: the
claim that each bucket carries *both* the count and the mean is false. -/
theorem weekly_bucket_carries_no_count :
    "count" ∉ postprocessMovielensColumns
    ∧ postprocessMovielensColumns = ["imdbId", "date", "rating"]
    ∧ postprocessMovielens exampleWeekRatings exampleLinks = [⟨some 1, 18267, 40⟩] := by
  refine ⟨by decide, by decide, ?_⟩
  have hpost : postprocessMovielens exampleWeekRatings exampleLinks
      = [⟨some 1, 18267, castUInt8 (10 * ratMean [3, 4, 5])⟩] := rfl
  have h40 : castUInt8 (10 * ratMean [3, 4, 5]) = 40 := by
    norm_num [castUInt8, ratMean, show Int.toNat 40 = 40 from rfl]
  rw [hpost, h40]

/-- Digit characters decode to their digit value. -/
theorem charVal_digitChar {d : Nat} (h : d < 10) : charVal (digitChar d) = d := by
  interval_cases d <;> rfl

/-- Digit characters are digit characters. -/
theorem isDigitChar_digitChar {d : Nat} (h : d < 10) : isDigitChar (digitChar d) = true := by
  interval_cases d <;> rfl

/-- Every decimal digit is below 10. -/
theorem decDigits_lt (n : Nat) : ∀ d ∈ decDigits n, d < 10 := by
  intro d hd
  rw [decDigits] at hd
  by_cases h0 : n = 0
  · rw [if_pos h0] at hd
    simp only [List.mem_singleton] at hd
    omega
  · rw [if_neg h0] at hd
    exact Nat.digits_lt_base (by norm_num) (List.mem_reverse.mp hd)

/-- The decimal representation is never empty. -/
theorem decDigits_ne_nil (n : Nat) : decDigits n ≠ [] := by
  rw [decDigits]
  by_cases h0 : n = 0
  · simp [h0]
  · rw [if_neg h0]
    simp [Nat.digits_ne_nil_iff_ne_zero.mpr h0]

/-- Folding decimal digits most-significant-first computes the number. -/
theorem foldl_digits (l : List Nat) (a : Nat) :
    l.foldl (fun a d => 10 * a + d) a = a * 10 ^ l.length + Nat.ofDigits 10 l.reverse := by
  induction l generalizing a with
  | nil => simp [Nat.ofDigits]
  | cons d t ih =>
    rw [List.foldl_cons, ih, List.reverse_cons, Nat.ofDigits_append]
    simp only [List.length_cons, List.length_reverse, Nat.ofDigits_singleton, pow_succ]
    ring

/-- Folding the decoded characters of digits equals folding the digits. -/
theorem foldl_charVal (l : List Nat) (h : ∀ d ∈ l, d < 10) (a : Nat) :
    (l.map digitChar).foldl (fun a c => 10 * a + charVal c) a
      = l.foldl (fun a d => 10 * a + d) a := by
  induction l generalizing a with
  | nil => rfl
  | cons d t ih =>
    rw [List.map_cons, List.foldl_cons, List.foldl_cons,
      charVal_digitChar (h d (List.mem_cons_self d t))]
    exact ih (fun x hx => h x (List.mem_cons_of_mem d hx)) _

/-- Leading zero characters do not change the decimal value. -/
theorem decValue_replicate_zero_append (k : Nat) (l : List Char) :
    decValue (List.replicate k '0' ++ l) = decValue l := by
  induction k with
  | zero => rfl
  | succ k ih =>
    rw [List.replicate_succ, List.cons_append, decValue, List.foldl_cons]
    exact ih

/-- Reversing the decimal representation and re-evaluating gives the number back. -/
theorem ofDigits_decDigits (n : Nat) : Nat.ofDigits 10 (decDigits n).reverse = n := by
  rw [decDigits]
  by_cases h0 : n = 0
  · simp [h0, Nat.ofDigits]
  · rw [if_neg h0, List.reverse_reverse, Nat.ofDigits_digits]

/-- The decimal value of the zero-padded digit string is the original number. -/
theorem decValue_zfill_decDigits (n : Nat) :
    decValue (zfill 7 ((decDigits n).map digitChar)) = n := by
  rw [zfill, decValue_replicate_zero_append, decValue,
    foldl_charVal (decDigits n) (decDigits_lt n) 0, foldl_digits]
  simp [ofDigits_decDigits]

/-- All characters of the padded digit string are digit characters. -/
theorem zfill_decDigits_all_digits (n : Nat) :
    ∀ c ∈ zfill 7 ((decDigits n).map digitChar), isDigitChar c = true := by
  intro c hc
  rw [zfill] at hc
  rcases List.mem_append.mp hc with hrep | hmap
  · rw [List.eq_of_mem_replicate hrep]
    rfl
  · rcases List.mem_map.mp hmap with ⟨d, hd, rfl⟩
    exact isDigitChar_digitChar (decDigits_lt n d hd)

/-- The padded digit string is nonempty. -/
theorem zfill_decDigits_ne_nil (n : Nat) :
    zfill 7 ((decDigits n).map digitChar) ≠ [] := by
  rw [zfill]
  intro hcon
  rcases List.append_eq_nil.mp hcon with ⟨_, hmap⟩
  exact decDigits_ne_nil n (List.map_eq_nil_iff.mp hmap)

/-- The character data of a derived canonical key. -/
theorem tconst_data (n : Nat) :
    (tconstOfImdbId n).data = 't' :: 't' :: zfill 7 ((decDigits n).map digitChar) := by
  rw [tconstOfImdbId, String.data_append]
  rfl

/-- Round trip: stripping the "tt" prefix and casting back to UInt32 recovers
every in-range id. -/
theorem imdbIdOfTconst_roundTrip {n : Nat} (hn : n < 2 ^ 32) :
    imdbIdOfTconst (tconstOfImdbId n) = some n := by
  rw [imdbIdOfTconst, tconst_data]
  have hstrip : stripTT ('t' :: 't' :: zfill 7 ((decDigits n).map digitChar))
      = zfill 7 ((decDigits n).map digitChar) := rfl
  rw [hstrip, castStringUInt32]
  rw [if_pos ⟨zfill_decDigits_ne_nil n, zfill_decDigits_all_digits n, by
      rw [decValue_zfill_decDigits]; exact hn⟩]
  exact congrArg some (decValue_zfill_decDigits n)

/-- Key derivation is injective on all unsigned integers. -/
theorem tconstOfImdbId_injective {a b : Nat} (h : tconstOfImdbId a = tconstOfImdbId b) :
    a = b := by
  have hdata := congrArg String.data h
  rw [tconst_data, tconst_data] at hdata
  have hL : zfill 7 ((decDigits a).map digitChar) = zfill 7 ((decDigits b).map digitChar) := by
    simpa using hdata
  have hv := congrArg decValue hL
  rwa [decValue_zfill_decDigits, decValue_zfill_decDigits] at hv

/-- A list of zero digits evaluates to zero. -/
theorem ofDigits_zero_of_all_zero {l : List Nat} (h : ∀ x ∈ l, x = 0) :
    Nat.ofDigits 10 l = 0 := by
  induction l with
  | nil => rfl
  | cons d t ih =>
    rw [Nat.ofDigits_cons, h d (List.mem_cons_self d t),
      ih (fun x hx => h x (List.mem_cons_of_mem d hx))]

/-- Re-padding the digits of the value of a 7-digit string reconstructs it. -/
theorem zfill_map_decDigits_ofDigits (ds : List Nat) (hlen : ds.length = 7)
    (hds : ∀ d ∈ ds, d < 10) :
    zfill 7 ((decDigits (Nat.ofDigits 10 ds.reverse)).map digitChar) = ds.map digitChar := by
  have hsplit : ds.takeWhile (fun d => d == 0) ++ ds.dropWhile (fun d => d == 0) = ds :=
    List.takeWhile_append_dropWhile _ _
  have hpre0 : ∀ x ∈ ds.takeWhile (fun d => d == 0), x = 0 := by
    intro x hx
    have := List.mem_takeWhile_imp hx
    simpa using this
  cases hc : ds.dropWhile (fun d => d == 0) with
  | nil =>
    have hpre_eq : ds.takeWhile (fun d => d == 0) = ds := by
      rw [hc, List.append_nil] at hsplit
      exact hsplit
    have hds0 : ∀ x ∈ ds, x = 0 := fun x hx => hpre0 x (by rw [hpre_eq]; exact hx)
    have hm0 : Nat.ofDigits 10 ds.reverse = 0 :=
      ofDigits_zero_of_all_zero (fun x hx => hds0 x (List.mem_reverse.mp hx))
    have hds_rep : ds = List.replicate 7 0 := List.eq_replicate_iff.mpr ⟨hlen, hds0⟩
    rw [hm0, hds_rep]
    decide
  | cons c rest =>
    have hcmem : ∀ x ∈ (c :: rest), x ∈ ds := by
      intro x hx
      have hsub : ds.dropWhile (fun d => d == 0) ⊆ ds := (List.dropWhile_sublist _).subset
      rw [hc] at hsub
      exact hsub hx
    have hhead := List.head?_dropWhile_not (fun d => d == 0) ds
    rw [hc] at hhead
    have hc0 : ¬c = 0 := by simpa using hhead
    have hpre_val : Nat.ofDigits 10 (ds.takeWhile (fun d => d == 0)).reverse = 0 :=
      ofDigits_zero_of_all_zero (fun x hx => hpre0 x (List.mem_reverse.mp hx))
    have hval : Nat.ofDigits 10 ds.reverse = Nat.ofDigits 10 (c :: rest).reverse := by
      conv_lhs => rw [← hsplit, hc]
      rw [List.reverse_append, Nat.ofDigits_append, hpre_val]
      simp
    have hm_ne : Nat.ofDigits 10 (c :: rest).reverse ≠ 0 := by
      rw [List.reverse_cons, Nat.ofDigits_append, Nat.ofDigits_singleton]
      have hpow : 0 < 10 ^ rest.reverse.length := pow_pos (by norm_num) _
      have hc1 : 1 ≤ c := Nat.one_le_iff_ne_zero.mpr hc0
      intro hcon
      have hmul : 0 < 10 ^ rest.reverse.length * c := Nat.mul_pos hpow hc1
      omega
    have hdigits : Nat.digits 10 (Nat.ofDigits 10 (c :: rest).reverse) = (c :: rest).reverse := by
      apply Nat.digits_ofDigits 10 (by norm_num)
      · intro x hx
        exact hds x (hcmem x (List.mem_reverse.mp hx))
      · intro hne
        rw [List.getLast_reverse]
        simpa using hc0
    rw [hval, decDigits, if_neg hm_ne, hdigits, List.reverse_reverse]
    have hds_eq : ds = ds.takeWhile (fun d => d == 0) ++ (c :: rest) := by
      rw [← hc, hsplit]
    rw [zfill, List.length_map]
    conv_rhs => rw [hds_eq]
    rw [List.map_append]
    have hlen' : (ds.takeWhile (fun d => d == 0)).length + (c :: rest).length = 7 := by
      rw [hds_eq, List.length_append] at hlen
      exact hlen
    congr 1
    have hpre_rep : ds.takeWhile (fun d => d == 0)
        = List.replicate (ds.takeWhile (fun d => d == 0)).length 0 :=
      List.eq_replicate_iff.mpr ⟨rfl, hpre0⟩
    rw [hpre_rep, List.map_replicate, show digitChar 0 = '0' from rfl]
    congr 1
    omega

/-- Surjectivity onto 7-digit strings: every 7-digit key is derived from an id
below 10^7. -/
theorem tconstOfImdbId_surjective_seven (ds : List Nat) (hlen : ds.length = 7)
    (hds : ∀ d ∈ ds, d < 10) :
    ∃ m, m < 10 ^ 7 ∧ tconstOfImdbId m = "tt" ++ String.mk (ds.map digitChar) := by
  refine ⟨Nat.ofDigits 10 ds.reverse, ?_, ?_⟩
  · have hb : Nat.ofDigits 10 ds.reverse < 10 ^ ds.reverse.length :=
      Nat.ofDigits_lt_base_pow_length (by norm_num)
        (fun x hx => hds x (List.mem_reverse.mp hx))
    rwa [List.length_reverse, hlen] at hb
  · rw [tconstOfImdbId]
    exact congrArg (fun l => "tt" ++ String.mk l) (zfill_map_decDigits_ofDigits ds hlen hds)

/-- C1: canonical key derivation ("tt" + decimal id left-padded with '0' to a
minimum width of 7) round-trips through stripping the "tt" prefix and parsing
as an unsigned integer for every id in UInt32 range, is injective on all
unsigned integers (padding never truncates ids beyond 7 digits), and every
7-digit key is reached from an id below 10^7 (bijection on that range). -/
theorem canonical_key_roundtrip_bijection (n a b : Nat) (ds : List Nat)
    (hn : n < 2 ^ 32) (hlen : ds.length = 7) (hds : ∀ d ∈ ds, d < 10) :
    imdbIdOfTconst (tconstOfImdbId n) = some n
    ∧ (tconstOfImdbId a = tconstOfImdbId b → a = b)
    ∧ ∃ m, m < 10 ^ 7 ∧ tconstOfImdbId m = "tt" ++ String.mk (ds.map digitChar) :=
  ⟨imdbIdOfTconst_roundTrip hn, tconstOfImdbId_injective,
    tconstOfImdbId_surjective_seven ds hlen hds⟩

/-- C1 witness: the round trip at the concrete id 123. -/
theorem canonical_key_roundtrip_bijection_witness :
    imdbIdOfTconst (tconstOfImdbId 123) = some 123 :=
  (canonical_key_roundtrip_bijection 123 0 0 [1, 2, 3, 4, 5, 6, 7]
    (by norm_num) (by decide) (by decide)).1
